import Mathlib

/-!
Shallow embedding of the Cannoli graph execution kernel
(`CannoliGraph`, `CannoliObject`, `CannoliVertex`), translated from the
TypeScript source. Statuses, dependency terms, the dependency/event
engine methods (`addDependency`, `isDependency`, `setupListeners`'
per-member listener, `allDependenciesComplete`, `tryReject`, `execute`,
`reset`), the geometric helpers (`createRectangle`, `encloses`,
`overlaps`, `setGroups`) and graph hydration (`hydrateGraph`).

Stateful methods are embedded as explicit state passing over the
object's own status together with a trace of primitive actions (status
writes, event emissions, unit-of-work calls), mirroring the order in
which the TypeScript statements run. The statuses of the other objects
in the graph are read-only during each method, so they are passed as a
map from id to status.
-/

namespace Cannoli

/-- Status enum of a graph object (object.ts also carries `error` in the
enum of status.ts; we use the five-value enum, only four appear here). -/
inductive CannoliObjectStatus where
  | pending
  | executing
  | complete
  | rejected
  | error
deriving DecidableEq, Repr

/-- A dependency term: TypeScript `string | string[]` — either a single
object id or an alternative set of ids. -/
inductive Dep where
  | single (id : String)
  | alt (ids : List String)
deriving DecidableEq, Repr

/-- The ids referenced by one dependency term. -/
def depIds : Dep → List String
  | Dep.single id => [id]
  | Dep.alt ids => ids

/-- All ids referenced by a dependency sequence. -/
def depsIds : List Dep → List String
  | [] => []
  | d :: rest => depIds d ++ depsIds rest

/-- The statuses of the other objects, read through the shared
id-to-object map (`this.graph[id].status`). -/
def StatusMap := String → CannoliObjectStatus

/-- Primitive observable actions of a `CannoliObject` method, in program
order: a write to `this.status`, an `emit("update", this, status, run)`,
and the awaited unit of work (`this.run()` or `this.mockRun()`). -/
inductive Action where
  | setStatus (s : CannoliObjectStatus)
  | emitUpdate (s : CannoliObjectStatus)
  | callRun
  | callMockRun
deriving DecidableEq, Repr

/-- `isDependency(potentialDependency)`: converts the candidate to an
array if needed, and checks whether any of its ids occurs in an existing
dependency term (`includes` for array terms, `===` for single ids). -/
def isDependency (dependencies : List Dep) (potentialDependency : Dep) : Bool :=
  (depIds potentialDependency).any (fun pd =>
    dependencies.any (fun dependency =>
      match dependency with
      | Dep.alt ids => decide (pd ∈ ids)
      | Dep.single id => id == pd))

/-- `addDependency(dependency)`: throws the duplicate-variables error if
`isDependency` holds, otherwise pushes the term. -/
def addDependency (dependencies : List Dep) (dependency : Dep) :
    Except String (List Dep) :=
  if isDependency dependencies dependency then
    Except.error "duplicate variables must come from different choice branches"
  else
    Except.ok (dependencies ++ [dependency])

/-- Result of the per-member "update" listener installed by
`setupListeners` on a member of an alternative-set term: either the
thrown duplicate-variables (conflicting alternatives) error, or the
forwarding of the notification to `dependencyUpdated`. -/
inductive ListenerResult where
  | conflictError
  | forwarded (element : String) (status : CannoliObjectStatus)
deriving DecidableEq, Repr

/-- The listener `setupListeners` installs on each `element` of an
array dependency term: on a `Complete` notification it filters the
term's members for `Complete` status and throws when more than one is
`Complete`; otherwise it calls
`dependencyUpdated(this.graph[element], status, run)`. -/
def altMemberListener (graph : StatusMap) (dependency : List String)
    (element : String) (status : CannoliObjectStatus) : ListenerResult :=
  if status = CannoliObjectStatus.complete then
    let completeDependencies := dependency.filter
      (fun d => decide (graph d = CannoliObjectStatus.complete))
    if completeDependencies.length > 1 then
      ListenerResult.conflictError
    else
      ListenerResult.forwarded element status
  else
    ListenerResult.forwarded element status

/-- `allDependenciesComplete()`: for each dependency term, an array term
returns false as soon as some member is not `Complete`, a single-id term
returns false if it is not `Complete`; otherwise true. -/
def allDependenciesComplete (graph : StatusMap) : List Dep → Bool
  | [] => true
  | Dep.alt ids :: rest =>
    if ids.any (fun dep => decide (¬ graph dep = CannoliObjectStatus.complete)) then
      false
    else
      allDependenciesComplete graph rest
  | Dep.single id :: rest =>
    if decide (¬ graph id = CannoliObjectStatus.complete) then
      false
    else
      allDependenciesComplete graph rest

/-- A dependency term is "fully rejected": a single id with `Rejected`
status, or an array term whose every element has `Rejected` status. -/
def fullyRejected (graph : StatusMap) : Dep → Bool
  | Dep.single id => decide (graph id = CannoliObjectStatus.rejected)
  | Dep.alt ids =>
    ids.all (fun dependency => decide (graph dependency = CannoliObjectStatus.rejected))

/-- `tryReject(run)`: the source iterates `this.dependencies.every(cb)`
where `cb` writes `Rejected`, emits, and returns `true` when the term is
fully rejected — and otherwise falls off the end, returning `undefined`
(falsy), which stops `.every` at that term. The embedding returns the
final `this.status` and the trace of writes/emissions. -/
def tryReject (graph : StatusMap) (deps : List Dep)
    (status : CannoliObjectStatus) : CannoliObjectStatus × List Action :=
  match deps with
  | [] => (status, [])
  | d :: rest =>
    if fullyRejected graph d then
      let r := tryReject graph rest CannoliObjectStatus.rejected
      (r.1, Action.setStatus CannoliObjectStatus.rejected ::
        Action.emitUpdate CannoliObjectStatus.rejected :: r.2)
    else
      (status, [])

/-- `execute(run)`, as its trace of actions: write `Executing`, emit,
await `mockRun()` when `run.isMock` and `run()` otherwise, write
`Complete`, emit. -/
def executeActs (isMock : Bool) : List Action :=
  [Action.setStatus CannoliObjectStatus.executing,
   Action.emitUpdate CannoliObjectStatus.executing]
  ++ (if isMock then [Action.callMockRun] else [Action.callRun])
  ++ [Action.setStatus CannoliObjectStatus.complete,
      Action.emitUpdate CannoliObjectStatus.complete]

/-- `reset(run)`: write `Pending` and emit. -/
def resetActs : List Action :=
  [Action.setStatus CannoliObjectStatus.pending,
   Action.emitUpdate CannoliObjectStatus.pending]

/-- Every status write in a trace is immediately followed by an
`emitUpdate` carrying the same status. -/
def writesFollowed : List Action → Bool
  | [] => true
  | Action.setStatus s :: Action.emitUpdate t :: rest =>
    decide (s = t) && writesFollowed (Action.emitUpdate t :: rest)
  | Action.setStatus _ :: _ => false
  | _ :: rest => writesFollowed rest

/-- Every `emitUpdate` in a trace is immediately preceded by a status
write of the same status (so each write pairs with a single emission and
no emission carries a stale status). -/
def emitsPreceded : List Action → Bool
  | [] => true
  | Action.emitUpdate _ :: _ => false
  | Action.setStatus s :: Action.emitUpdate t :: rest =>
    decide (s = t) && emitsPreceded rest
  | _ :: rest => emitsPreceded rest

/-! ### CannoliVertex geometry (`createRectangle`, `encloses`, `overlaps`,
`setGroups`) -/

/-- The record returned by `createRectangle`. Canvas coordinates are
modelled as integers. -/
structure Rectangle where
  x : Int
  y : Int
  width : Int
  height : Int
  x_right : Int
  y_bottom : Int
deriving DecidableEq, Repr

/-- `createRectangle(x, y, width, height)`. -/
def createRectangle (x y width height : Int) : Rectangle :=
  { x := x, y := y, width := width, height := height,
    x_right := x + width, y_bottom := y + height }

/-- `encloses(a, b)`: inclusive containment on all four edges. -/
def encloses (a b : Rectangle) : Bool :=
  decide (a.x ≤ b.x) && decide (a.y ≤ b.y) &&
  decide (a.x_right ≥ b.x_right) && decide (a.y_bottom ≥ b.y_bottom)

/-- `overlaps(a, b)`: strict horizontal and vertical extent overlap, and
neither rectangle encloses the other. -/
def overlaps (a b : Rectangle) : Bool :=
  let horizontalOverlap := decide (a.x < b.x_right) && decide (a.x_right > b.x)
  let verticalOverlap := decide (a.y < b.y_bottom) && decide (a.y_bottom > b.y)
  let overlap := horizontalOverlap && verticalOverlap
  overlap && !(encloses a b) && !(encloses b a)

/-- The fields of a vertex's `canvasData` that `setGroups` reads: id,
the canvas `type` tag ("group" for groups), and the geometry. -/
structure CanvasNodeData where
  id : String
  type : String
  x : Int
  y : Int
  width : Int
  height : Int
deriving DecidableEq, Repr

/-- An entry of the id-to-object graph as `setGroups` sees it: either a
`CannoliVertex` (carrying its `canvasData`) or some other object (an
edge), which the scan skips. -/
inductive GraphEntry where
  | vertex (canvasData : CanvasNodeData)
  | nonVertex (id : String)
deriving DecidableEq, Repr

/-- The rectangle `setGroups` builds from a vertex's canvas data. -/
def dataRectangle (c : CanvasNodeData) : Rectangle :=
  createRectangle c.x c.y c.width c.height

/-- Rectangle area as used by the `setGroups` sort comparator. -/
def area (c : CanvasNodeData) : Int := c.width * c.height

/-- The comparator order of the `setGroups` sort: ascending area. -/
def areaLe (a b : CanvasNodeData) : Prop := area a ≤ area b

instance : DecidableRel areaLe :=
  fun a b => inferInstanceAs (Decidable (area a ≤ area b))

instance : IsTotal CanvasNodeData areaLe :=
  ⟨fun a b => Int.le_total (area a) (area b)⟩

instance : IsTrans CanvasNodeData areaLe :=
  ⟨fun _ _ _ h h' => le_trans h h'⟩

/-- The scan inside `setGroups`: every graph entry that is a
`CannoliVertex` whose canvas `type` is "group" and whose rectangle
encloses the current vertex's rectangle, in graph iteration order. -/
def enclosingGroups (graph : List GraphEntry) (v : CanvasNodeData) :
    List CanvasNodeData :=
  graph.filterMap (fun e =>
    match e with
    | GraphEntry.nonVertex _ => none
    | GraphEntry.vertex c =>
      if c.type = "group" then
        if encloses (dataRectangle c) (dataRectangle v) then some c else none
      else none)

/-- The matches of the scan, sorted from smallest to largest area. The
source sorts with the comparator `aArea - bArea` via the stable
`Array.prototype.sort`, which a stable insertion sort models. -/
def sortedEnclosingGroups (graph : List GraphEntry) (v : CanvasNodeData) :
    List CanvasNodeData :=
  List.insertionSort areaLe (enclosingGroups graph v)

/-- `setGroups()`: the final value of `this.groups` — the ids of the
sorted matches. -/
def setGroups (graph : List GraphEntry) (v : CanvasNodeData) : List String :=
  (sortedEnclosingGroups graph v).map (fun group => group.id)

/-! ### CannoliGraph.hydrateGraph -/

/-- A node of the verified canvas as `hydrateGraph` reads it: its id and
its `cannoliData.type` tag. -/
structure CanvasNode where
  id : String
  type : String
deriving DecidableEq, Repr

/-- An edge of the verified canvas as `hydrateGraph` reads it. -/
structure CanvasEdge where
  id : String
  type : String
deriving DecidableEq, Repr

/-- The concrete class `hydrateGraph` constructs for a graph entry. -/
inductive HydratedClass where
  | forEachGroup
  | repeatGroup
  | cannoliGroup
  | inputNode
  | displayNode
  | referenceNode
  | formatterNode
  | callNode
  | chooseNode
  | distributeNode
  | loggingEdge
  | systemMessageEdge
  | cannoliEdge
deriving DecidableEq, Repr

/-- One arm of the node `switch`: `ok (some cls)` assigns
`this.graph[node.id]`, `ok none` is a case that only logs a console
error (dynamic-reference, categorize, select), `error` is the thrown
"Unknown node type" of the default arm. -/
def hydrateNode (t : String) : Except String (Option HydratedClass) :=
  if t = "for-each" then Except.ok (some HydratedClass.forEachGroup)
  else if t = "repeat" then Except.ok (some HydratedClass.repeatGroup)
  else if t = "basic" then Except.ok (some HydratedClass.cannoliGroup)
  else if t = "input" then Except.ok (some HydratedClass.inputNode)
  else if t = "display" then Except.ok (some HydratedClass.displayNode)
  else if t = "static-reference" then Except.ok (some HydratedClass.referenceNode)
  else if t = "dynamic-reference" then Except.ok none
  else if t = "formatter" then Except.ok (some HydratedClass.formatterNode)
  else if t = "standard-call" then Except.ok (some HydratedClass.callNode)
  else if t = "choose" then Except.ok (some HydratedClass.chooseNode)
  else if t = "distribute" then Except.ok (some HydratedClass.distributeNode)
  else if t = "categorize" then Except.ok none
  else if t = "select" then Except.ok none
  else Except.error ("Unknown node type: " ++ t)

/-- The edge `switch`: logging and system-message edges get their
subclass, every other type tag falls to the default arm and becomes a
generic `CannoliEdge`. -/
def hydrateEdge (t : String) : HydratedClass :=
  if t = "logging" then HydratedClass.loggingEdge
  else if t = "system-message" then HydratedClass.systemMessageEdge
  else HydratedClass.cannoliEdge

/-- The node loop of `hydrateGraph`: assignments to `this.graph` in
order, stopping with the thrown error at the first unrecognized type. -/
def hydrateNodes : List CanvasNode → Except String (List (String × HydratedClass))
  | [] => Except.ok []
  | n :: rest =>
    match hydrateNode n.type with
    | Except.error e => Except.error e
    | Except.ok none => hydrateNodes rest
    | Except.ok (some cls) =>
      match hydrateNodes rest with
      | Except.error e => Except.error e
      | Except.ok g => Except.ok ((n.id, cls) :: g)

/-- `hydrateGraph()`: the node loop followed by the edge loop (the edge
loop never throws). -/
def hydrateGraph (nodes : List CanvasNode) (edges : List CanvasEdge) :
    Except String (List (String × HydratedClass)) :=
  match hydrateNodes nodes with
  | Except.error e => Except.error e
  | Except.ok g =>
    Except.ok (g ++ edges.map (fun e => (e.id, hydrateEdge e.type)))

/-- The node type tags the `switch` recognizes (all non-default arms). -/
def recognizedNodeType (t : String) : Bool :=
  decide (t ∈ ["for-each", "repeat", "basic", "input", "display",
    "static-reference", "dynamic-reference", "formatter", "standard-call",
    "choose", "distribute", "categorize", "select"])

/-- The recognized node type tags whose arm only logs a console error
and assigns nothing. -/
def omittedNodeType (t : String) : Bool :=
  decide (t ∈ ["dynamic-reference", "categorize", "select"])

/-! ### Theorems -/

/-- The concrete status map of the C1 counterexample run: object "b" is
`Rejected`, every other object `Pending`. -/
def graphC1 : StatusMap := fun id =>
  if id = "b" then CannoliObjectStatus.rejected else CannoliObjectStatus.pending

/-- C1: the claim fails on the code. With dependency terms
`["a", "b"]` where "a" is `Pending` and "b" is `Rejected`, the term
`single "b"` is fully rejected, yet `tryReject` leaves the object
`Pending` and emits nothing: `.every`'s callback returns `undefined`
(falsy) on the non-rejected first term, which stops the scan before the
fully rejected second term is examined. -/
theorem tryReject_misses_rejected_term_after_pending_term :
    fullyRejected graphC1 (Dep.single "b") = true ∧
    tryReject graphC1 [Dep.single "a", Dep.single "b"]
      CannoliObjectStatus.pending = (CannoliObjectStatus.pending, []) := by
  decide

/-- C2: `allDependenciesComplete` returns true iff every id referenced
by every dependency term — every member of each alternative set
included — has status `Complete`. -/
theorem allDependenciesComplete_iff_all_complete (graph : StatusMap)
    (deps : List Dep) :
    allDependenciesComplete graph deps = true ↔
      ∀ id ∈ depsIds deps, graph id = CannoliObjectStatus.complete := by
  induction deps with
  | nil => simp [allDependenciesComplete, depsIds]
  | cons d rest ih =>
    cases d with
    | single i =>
      simp only [allDependenciesComplete, depsIds, depIds, List.mem_append,
        List.mem_singleton]
      by_cases h : graph i = CannoliObjectStatus.complete <;> simp [h, ih]
    | alt ids =>
      by_cases h : (ids.any fun dep =>
          decide (¬ graph dep = CannoliObjectStatus.complete)) = true
      · have hex : ∃ x ∈ ids, ¬ graph x = CannoliObjectStatus.complete := by
          simpa using h
        obtain ⟨x, hx, hnx⟩ := hex
        simp only [allDependenciesComplete, if_pos h, depsIds, depIds,
          List.mem_append]
        constructor
        · intro hf; cases hf
        · intro hall; exact absurd (hall x (Or.inl hx)) hnx
      · have hc : ∀ x ∈ ids, graph x = CannoliObjectStatus.complete := by
          intro x hx
          by_contra hnx
          exact h (by simp only [List.any_eq_true, decide_eq_true_eq]; exact ⟨x, hx, hnx⟩)
        simp only [allDependenciesComplete, if_neg h, depsIds, depIds,
          List.mem_append, ih]
        constructor
        · intro hall id hid
          cases hid with
          | inl hin => exact hc id hin
          | inr hin => exact hall id hin
        · intro hall id hid
          exact hall id (Or.inr hid)

/-- C3: the listener installed on a member of an alternative-set term
throws the conflicting-alternatives error exactly when the notification
status is `Complete` and more than one member of the set currently has
status `Complete`; in every other case it forwards the notification
(member object and status) to `dependencyUpdated`. -/
theorem altMemberListener_conflict_char (graph : StatusMap)
    (dependency : List String) (element : String)
    (status : CannoliObjectStatus) :
    (altMemberListener graph dependency element status =
        ListenerResult.conflictError ↔
      (status = CannoliObjectStatus.complete ∧
        1 < (dependency.filter
          (fun d => decide (graph d = CannoliObjectStatus.complete))).length))
    ∧ (altMemberListener graph dependency element status =
        ListenerResult.forwarded element status ↔
      ¬ (status = CannoliObjectStatus.complete ∧
        1 < (dependency.filter
          (fun d => decide (graph d = CannoliObjectStatus.complete))).length)) := by
  unfold altMemberListener
  by_cases hs : status = CannoliObjectStatus.complete
  · by_cases hl : 1 < (dependency.filter
      (fun d => decide (graph d = CannoliObjectStatus.complete))).length
    · simp [hs, hl]
    · simp [hs, hl]
  · simp [hs]

/-- The membership test `isDependency` runs on one existing term is
exactly membership in the term's referenced ids. -/
theorem depMatch_iff (pd : String) (d : Dep) :
    (match d with
     | Dep.alt ids => decide (pd ∈ ids)
     | Dep.single id => id == pd) = true ↔ pd ∈ depIds d := by
  cases d with
  | single id =>
    simp only [depIds, List.mem_singleton, beq_iff_eq]
    exact ⟨fun h => h.symm, fun h => h.symm⟩
  | alt ids => simp [depIds]

/-- `isDependency` holds iff some id of the candidate term already
appears — as a single id or inside an alternative set — in an existing
dependency term. -/
theorem isDependency_iff (deps : List Dep) (term : Dep) :
    isDependency deps term = true ↔
      ∃ id ∈ depIds term, ∃ d ∈ deps, id ∈ depIds d := by
  unfold isDependency
  simp only [List.any_eq_true, depMatch_iff]

/-- C4: `addDependency` throws iff the term (any id inside it, when it
is an alternative set) already appears in a previously added term as a
single id or alternative-set member; otherwise it appends the term
unchanged. In particular a second call with overlapping alternative-set
membership throws. -/
theorem addDependency_duplicate_char (deps : List Dep) (term : Dep) :
    ((∃ e, addDependency deps term = Except.error e) ↔
      ∃ id ∈ depIds term, ∃ d ∈ deps, id ∈ depIds d)
    ∧ (addDependency deps term = Except.ok (deps ++ [term]) ↔
      ¬ ∃ id ∈ depIds term, ∃ d ∈ deps, id ∈ depIds d)
    ∧ (∃ e, addDependency [Dep.alt ["x", "y"]] (Dep.alt ["y", "z"]) =
        Except.error e) := by
  refine ⟨?_, ?_, ⟨_, rfl⟩⟩
  · by_cases h : isDependency deps term = true
    · simp only [addDependency, if_pos h]
      rw [isDependency_iff] at h
      exact ⟨fun _ => h, fun _ => ⟨_, rfl⟩⟩
    · simp only [addDependency, if_neg h]
      rw [isDependency_iff] at h
      constructor
      · rintro ⟨e, he⟩; simp at he
      · intro hp; exact absurd hp h
  · by_cases h : isDependency deps term = true
    · simp only [addDependency, if_pos h]
      rw [isDependency_iff] at h
      constructor
      · intro hf; simp at hf
      · intro hn; exact absurd h hn
    · simp only [addDependency, if_neg h]
      rw [isDependency_iff] at h
      simp [h]

/-- C5: `execute` writes `Executing`, emits it, awaits `mockRun()` under
a mock run and `run()` otherwise, then writes `Complete` and emits it;
in particular a mock run never calls the real unit of work. -/
theorem execute_trace_char :
    executeActs true =
      [Action.setStatus CannoliObjectStatus.executing,
       Action.emitUpdate CannoliObjectStatus.executing,
       Action.callMockRun,
       Action.setStatus CannoliObjectStatus.complete,
       Action.emitUpdate CannoliObjectStatus.complete] ∧
    executeActs false =
      [Action.setStatus CannoliObjectStatus.executing,
       Action.emitUpdate CannoliObjectStatus.executing,
       Action.callRun,
       Action.setStatus CannoliObjectStatus.complete,
       Action.emitUpdate CannoliObjectStatus.complete] ∧
    Action.callRun ∉ executeActs true := by
  decide

/-- C8: `overlaps a b` holds iff the horizontal and vertical extents of
the two rectangles strictly overlap and neither rectangle encloses the
other; the predicate is symmetric. -/
theorem overlaps_char (a b : Rectangle) :
    (overlaps a b = true ↔
      ((a.x < b.x_right ∧ b.x < a.x_right) ∧
       (a.y < b.y_bottom ∧ b.y < a.y_bottom) ∧
       encloses a b = false ∧ encloses b a = false))
    ∧ overlaps a b = overlaps b a := by
  constructor
  · simp only [overlaps, Bool.and_eq_true, decide_eq_true_eq,
      Bool.not_eq_true', gt_iff_lt]
    tauto
  · rw [Bool.eq_iff_iff]
    simp only [overlaps, Bool.and_eq_true, decide_eq_true_eq,
      Bool.not_eq_true', gt_iff_lt]
    tauto

/-- A trace starting with an emission never satisfies `emitsPreceded`;
dropping a leading non-write action preserves `writesFollowed`. -/
theorem writesFollowed_emit_cons (t : CannoliObjectStatus) (rest : List Action) :
    writesFollowed (Action.emitUpdate t :: rest) = writesFollowed rest := rfl

/-- A write/emission pair at the head reduces `writesFollowed` to the
tail starting at the emission. -/
theorem writesFollowed_pair_cons (s : CannoliObjectStatus) (rest : List Action) :
    writesFollowed (Action.setStatus s :: Action.emitUpdate s :: rest) =
      writesFollowed (Action.emitUpdate s :: rest) := by
  simp [writesFollowed]

/-- A write/emission pair at the head reduces `emitsPreceded` to the
remaining trace. -/
theorem emitsPreceded_pair_cons (s : CannoliObjectStatus) (rest : List Action) :
    emitsPreceded (Action.setStatus s :: Action.emitUpdate s :: rest) =
      emitsPreceded rest := by
  simp [emitsPreceded]

/-- The trace of `tryReject` pairs every status write with its
emission, whatever the starting status. -/
theorem tryReject_trace_paired (graph : StatusMap) (deps : List Dep) :
    ∀ st, writesFollowed (tryReject graph deps st).2 = true ∧
      emitsPreceded (tryReject graph deps st).2 = true := by
  induction deps with
  | nil => intro st; exact ⟨rfl, rfl⟩
  | cons d rest ih =>
    intro st
    by_cases h : fullyRejected graph d = true
    · have hacts : (tryReject graph (d :: rest) st).2 =
        Action.setStatus CannoliObjectStatus.rejected ::
          Action.emitUpdate CannoliObjectStatus.rejected ::
          (tryReject graph rest CannoliObjectStatus.rejected).2 := by
        simp [tryReject, h]
      rw [hacts]
      constructor
      · rw [writesFollowed_pair_cons, writesFollowed_emit_cons]
        exact (ih CannoliObjectStatus.rejected).1
      · rw [emitsPreceded_pair_cons]
        exact (ih CannoliObjectStatus.rejected).2
    · have hacts : (tryReject graph (d :: rest) st).2 = [] := by
        simp [tryReject, h]
      rw [hacts]
      exact ⟨rfl, rfl⟩

/-- C7: in the traces of `execute`, `tryReject` and `reset`, every
status write is immediately followed by exactly one "update" emission
carrying the written status, and every emission is immediately preceded
by the write of that same status. -/
theorem status_write_emit_paired (isMock : Bool) (graph : StatusMap)
    (deps : List Dep) (st : CannoliObjectStatus) :
    (writesFollowed (executeActs isMock) = true ∧
     emitsPreceded (executeActs isMock) = true) ∧
    (writesFollowed (tryReject graph deps st).2 = true ∧
     emitsPreceded (tryReject graph deps st).2 = true) ∧
    (writesFollowed resetActs = true ∧ emitsPreceded resetActs = true) := by
  refine ⟨?_, tryReject_trace_paired graph deps st, by decide⟩
  cases isMock <;> decide

/-- Membership in the `setGroups` scan result: exactly the graph's
vertices with canvas type "group" whose rectangle encloses the current
vertex's rectangle. -/
theorem mem_enclosingGroups (graph : List GraphEntry) (v c : CanvasNodeData) :
    c ∈ enclosingGroups graph v ↔
      GraphEntry.vertex c ∈ graph ∧ c.type = "group" ∧
        encloses (dataRectangle c) (dataRectangle v) = true := by
  unfold enclosingGroups
  rw [List.mem_filterMap]
  constructor
  · rintro ⟨e, he, hfe⟩
    cases e with
    | nonVertex id => simp at hfe
    | vertex cd =>
      dsimp only at hfe
      split_ifs at hfe with ht henc
      · rw [Option.some.injEq] at hfe
        subst hfe
        exact ⟨he, ht, henc⟩
  · rintro ⟨hmem, ht, henc⟩
    exact ⟨GraphEntry.vertex c, hmem, by simp [ht, henc]⟩

/-- The vertex of the C6 example: a 2×2 text node at (1, 1). -/
def exVertexC6 : CanvasNodeData :=
  { id := "V", type := "text", x := 1, y := 1, width := 2, height := 2 }

/-- Group G1 of the C6 example, area 100, enclosing the vertex. -/
def exGroupG1 : CanvasNodeData :=
  { id := "G1", type := "group", x := 0, y := 0, width := 10, height := 10 }

/-- Group G2 of the C6 example, area 500, enclosing G1. -/
def exGroupG2 : CanvasNodeData :=
  { id := "G2", type := "group", x := -2, y := -2, width := 25, height := 20 }

/-- The C6 example graph, with the outer group iterated first. -/
def exGraphC6 : List GraphEntry :=
  [GraphEntry.vertex exGroupG2, GraphEntry.vertex exGroupG1,
   GraphEntry.vertex exVertexC6]

/-- C6: `setGroups` records exactly the ids of the group objects whose
rectangle (inclusively) encloses the vertex's rectangle, ordered by
ascending rectangle area; on the example vertex enclosed by G1 (area
100) inside G2 (area 500) it yields ["G1", "G2"]. -/
theorem setGroups_char (graph : List GraphEntry) (v : CanvasNodeData) :
    (∀ id, id ∈ setGroups graph v ↔
      ∃ c, GraphEntry.vertex c ∈ graph ∧ c.type = "group" ∧
        encloses (dataRectangle c) (dataRectangle v) = true ∧ c.id = id)
    ∧ List.Sorted areaLe (sortedEnclosingGroups graph v)
    ∧ setGroups exGraphC6 exVertexC6 = ["G1", "G2"] := by
  refine ⟨?_, List.sorted_insertionSort areaLe _, by decide⟩
  intro id
  unfold setGroups sortedEnclosingGroups
  rw [List.mem_map]
  constructor
  · rintro ⟨c, hc, rfl⟩
    rw [List.mem_insertionSort, mem_enclosingGroups] at hc
    exact ⟨c, hc.1, hc.2.1, hc.2.2, rfl⟩
  · rintro ⟨c, h1, h2, h3, rfl⟩
    refine ⟨c, ?_, rfl⟩
    rw [List.mem_insertionSort, mem_enclosingGroups]
    exact ⟨h1, h2, h3⟩

/-- Group A of the C9 counterexample, iterated first in the graph. -/
def groupA9 : CanvasNodeData :=
  { id := "A", type := "group", x := 0, y := 0, width := 10, height := 10 }

/-- Group B of the C9 counterexample: the same rectangle as A. -/
def groupB9 : CanvasNodeData :=
  { id := "B", type := "group", x := 0, y := 0, width := 10, height := 10 }

/-- The C9 counterexample graph: two distinct groups with identical
rectangles, A iterated before B. -/
def graphC9 : List GraphEntry :=
  [GraphEntry.vertex groupA9, GraphEntry.vertex groupB9]

/-- C9 counterexample: running `setGroups` on group B, whose rectangle
is identical to the earlier group A's, yields ["A", "B"] — B's own id is
recorded, but it is not the first entry among the equal-area matches;
the stable sort keeps the graph iteration order A before B. -/
theorem setGroups_self_not_first_counterexample :
    setGroups graphC9 groupB9 = ["A", "B"] ∧
    area groupA9 = area groupB9 ∧
    (setGroups graphC9 groupB9).head? = some "A" ∧
    ¬ groupA9.id = groupB9.id := by decide

/-- C9 (amended): a group vertex present in the graph always records its
own id among its groups, and its area is minimal among all recorded
matches (every enclosing group's rectangle is at least as large); among
equal-area matches the position follows graph iteration order, so the
vertex's own id need not come first. -/
theorem setGroups_includes_self (graph : List GraphEntry) (v : CanvasNodeData)
    (hmem : GraphEntry.vertex v ∈ graph) (htype : v.type = "group")
    (hw : 0 ≤ v.width) (hh : 0 ≤ v.height) :
    v.id ∈ setGroups graph v ∧
    ∀ c ∈ enclosingGroups graph v, area v ≤ area c := by
  constructor
  · unfold setGroups sortedEnclosingGroups
    rw [List.mem_map]
    refine ⟨v, ?_, rfl⟩
    rw [List.mem_insertionSort, mem_enclosingGroups]
    refine ⟨hmem, htype, ?_⟩
    simp [encloses, dataRectangle, createRectangle]
  · intro c hc
    rw [mem_enclosingGroups] at hc
    have henc := hc.2.2
    simp only [encloses, dataRectangle, createRectangle, Bool.and_eq_true,
      decide_eq_true_eq, ge_iff_le] at henc
    obtain ⟨⟨⟨hx, hy⟩, hxr⟩, hyb⟩ := henc
    have hwle : v.width ≤ c.width := by omega
    have hhle : v.height ≤ c.height := by omega
    simp only [area]
    exact mul_le_mul hwle hhle hh (le_trans hw hwle)

/-- Concrete instance of the amended C9 statement: a lone group vertex
records itself. -/
theorem setGroups_includes_self_witness :
    groupB9.id ∈ setGroups [GraphEntry.vertex groupB9] groupB9 :=
  (setGroups_includes_self [GraphEntry.vertex groupB9] groupB9
    (by decide) (by decide) (by decide) (by decide)).1

/-- Whether a node switch result is the thrown "Unknown node type". -/
def isErrorResult : Except String (Option HydratedClass) → Bool
  | Except.error _ => true
  | Except.ok _ => false

/-- Whether a node switch result is a log-only arm (no assignment). -/
def isNoneResult : Except String (Option HydratedClass) → Bool
  | Except.ok none => true
  | _ => false

/-- The node switch throws exactly on the unrecognized type tags, and
assigns nothing exactly on the omitted (log-only) tags. -/
theorem hydrateNode_flags (t : String) :
    isErrorResult (hydrateNode t) = !(recognizedNodeType t) ∧
    isNoneResult (hydrateNode t) = omittedNodeType t := by
  unfold hydrateNode
  by_cases h1 : t = "for-each"
  · subst h1; exact ⟨rfl, rfl⟩
  rw [if_neg h1]
  by_cases h2 : t = "repeat"
  · subst h2; exact ⟨rfl, rfl⟩
  rw [if_neg h2]
  by_cases h3 : t = "basic"
  · subst h3; exact ⟨rfl, rfl⟩
  rw [if_neg h3]
  by_cases h4 : t = "input"
  · subst h4; exact ⟨rfl, rfl⟩
  rw [if_neg h4]
  by_cases h5 : t = "display"
  · subst h5; exact ⟨rfl, rfl⟩
  rw [if_neg h5]
  by_cases h6 : t = "static-reference"
  · subst h6; exact ⟨rfl, rfl⟩
  rw [if_neg h6]
  by_cases h7 : t = "dynamic-reference"
  · subst h7; exact ⟨rfl, rfl⟩
  rw [if_neg h7]
  by_cases h8 : t = "formatter"
  · subst h8; exact ⟨rfl, rfl⟩
  rw [if_neg h8]
  by_cases h9 : t = "standard-call"
  · subst h9; exact ⟨rfl, rfl⟩
  rw [if_neg h9]
  by_cases h10 : t = "choose"
  · subst h10; exact ⟨rfl, rfl⟩
  rw [if_neg h10]
  by_cases h11 : t = "distribute"
  · subst h11; exact ⟨rfl, rfl⟩
  rw [if_neg h11]
  by_cases h12 : t = "categorize"
  · subst h12; exact ⟨rfl, rfl⟩
  rw [if_neg h12]
  by_cases h13 : t = "select"
  · subst h13; exact ⟨rfl, rfl⟩
  rw [if_neg h13]
  have hrec : recognizedNodeType t = false := by
    unfold recognizedNodeType
    apply decide_eq_false
    intro hmem
    simp only [List.mem_cons] at hmem
    rcases hmem with h | h | h | h | h | h | h | h | h | h | h | h | h | h
    exacts [h1 h, h2 h, h3 h, h4 h, h5 h, h6 h, h7 h, h8 h, h9 h, h10 h,
      h11 h, h12 h, h13 h, (by cases h)]
  have homi : omittedNodeType t = false := by
    unfold omittedNodeType
    apply decide_eq_false
    intro hmem
    simp only [List.mem_cons] at hmem
    rcases hmem with h | h | h | h
    exacts [h7 h, h12 h, h13 h, (by cases h)]
  rw [hrec, homi]
  exact ⟨rfl, rfl⟩

/-- A thrown node switch arm means its tag is unrecognized. -/
theorem hydrateNode_error_recog {t e : String}
    (h : hydrateNode t = Except.error e) : recognizedNodeType t = false := by
  have hf := (hydrateNode_flags t).1
  rw [h] at hf
  have hf2 : (!(recognizedNodeType t)) = true := hf.symm
  rw [Bool.not_eq_true'] at hf2
  exact hf2

/-- A non-throwing node switch arm means its tag is recognized. -/
theorem hydrateNode_ok_recog {t : String} {oc : Option HydratedClass}
    (h : hydrateNode t = Except.ok oc) : recognizedNodeType t = true := by
  have hf := (hydrateNode_flags t).1
  rw [h] at hf
  have hf2 : (!(recognizedNodeType t)) = false := hf.symm
  rw [Bool.not_eq_false'] at hf2
  exact hf2

/-- An unrecognized tag makes the node switch throw. -/
theorem hydrateNode_error_of_not_recog {t : String}
    (h : recognizedNodeType t = false) :
    ∃ e, hydrateNode t = Except.error e := by
  have hf := (hydrateNode_flags t).1
  rw [h] at hf
  cases hx : hydrateNode t with
  | error e => exact ⟨e, rfl⟩
  | ok oc =>
    rw [hx] at hf
    exact absurd hf (by simp [isErrorResult])

/-- An omitted (log-only) tag makes the node switch assign nothing. -/
theorem hydrateNode_none_of_omitted {t : String}
    (h : omittedNodeType t = true) : hydrateNode t = Except.ok none := by
  have hf := (hydrateNode_flags t).2
  rw [h] at hf
  cases hx : hydrateNode t with
  | error e =>
    rw [hx] at hf
    exact absurd hf (by simp [isNoneResult])
  | ok oc =>
    cases oc with
    | none => rfl
    | some c =>
      rw [hx] at hf
      exact absurd hf (by simp [isNoneResult])

/-- The node loop throws exactly when some node's type tag is
unrecognized. -/
theorem hydrateNodes_error_iff (nodes : List CanvasNode) :
    (∃ e, hydrateNodes nodes = Except.error e) ↔
      ∃ n ∈ nodes, recognizedNodeType n.type = false := by
  induction nodes with
  | nil => simp [hydrateNodes]
  | cons n rest ih =>
    cases hn : hydrateNode n.type with
    | error e =>
      have hrecf : recognizedNodeType n.type = false :=
        hydrateNode_error_recog hn
      constructor
      · intro _
        exact ⟨n, List.mem_cons_self n rest, hrecf⟩
      · intro _
        exact ⟨e, by simp [hydrateNodes, hn]⟩
    | ok oc =>
      have hrect : recognizedNodeType n.type = true :=
        hydrateNode_ok_recog hn
      cases oc with
      | none =>
        have heq : hydrateNodes (n :: rest) = hydrateNodes rest := by
          simp [hydrateNodes, hn]
        rw [heq]
        constructor
        · intro hex
          obtain ⟨m, hm, hmr⟩ := ih.1 hex
          exact ⟨m, List.mem_cons_of_mem n hm, hmr⟩
        · rintro ⟨m, hm, hmr⟩
          rcases List.mem_cons.1 hm with heqm | hmemr
          · subst heqm
            rw [hrect] at hmr
            exact Bool.noConfusion hmr
          · exact ih.2 ⟨m, hmemr, hmr⟩
      | some cls =>
        cases hrest : hydrateNodes rest with
        | error e2 =>
          have heq : hydrateNodes (n :: rest) = Except.error e2 := by
            simp [hydrateNodes, hn, hrest]
          rw [heq]
          constructor
          · intro _
            obtain ⟨m, hm, hmr⟩ := ih.1 ⟨e2, hrest⟩
            exact ⟨m, List.mem_cons_of_mem n hm, hmr⟩
          · intro _
            exact ⟨e2, rfl⟩
        | ok g =>
          have heq : hydrateNodes (n :: rest) = Except.ok ((n.id, cls) :: g) := by
            simp [hydrateNodes, hn, hrest]
          rw [heq]
          constructor
          · rintro ⟨e, he⟩
            exact absurd he (by simp)
          · rintro ⟨m, hm, hmr⟩
            rcases List.mem_cons.1 hm with heqm | hmemr
            · subst heqm
              rw [hrect] at hmr
              exact Bool.noConfusion hmr
            · obtain ⟨e, he⟩ := ih.2 ⟨m, hmemr, hmr⟩
              rw [hrest] at he
              exact absurd he (by simp)

/-- Characterization of the id-to-class pairs the node loop produces. -/
theorem hydrateNodes_mem_iff (nodes : List CanvasNode)
    (g : List (String × HydratedClass))
    (hok : hydrateNodes nodes = Except.ok g) :
    ∀ id cls, (id, cls) ∈ g ↔
      ∃ n ∈ nodes, n.id = id ∧ hydrateNode n.type = Except.ok (some cls) := by
  induction nodes generalizing g with
  | nil =>
    intro id cls
    simp only [hydrateNodes, Except.ok.injEq] at hok
    subst hok
    simp
  | cons n rest ih =>
    intro id cls
    cases hn : hydrateNode n.type with
    | error e =>
      rw [show hydrateNodes (n :: rest) = Except.error e by
        simp [hydrateNodes, hn]] at hok
      exact absurd hok (by simp)
    | ok oc =>
      cases oc with
      | none =>
        rw [show hydrateNodes (n :: rest) = hydrateNodes rest by
          simp [hydrateNodes, hn]] at hok
        constructor
        · intro hmem
          obtain ⟨m, hm, hid, hcls⟩ := (ih g hok id cls).1 hmem
          exact ⟨m, List.mem_cons_of_mem n hm, hid, hcls⟩
        · rintro ⟨m, hm, hid, hcls⟩
          rcases List.mem_cons.1 hm with heqm | hmemr
          · subst heqm
            rw [hn] at hcls
            exact absurd hcls (by simp)
          · exact (ih g hok id cls).2 ⟨m, hmemr, hid, hcls⟩
      | some cls2 =>
        cases hrest : hydrateNodes rest with
        | error e =>
          rw [show hydrateNodes (n :: rest) = Except.error e by
            simp [hydrateNodes, hn, hrest]] at hok
          exact absurd hok (by simp)
        | ok g2 =>
          rw [show hydrateNodes (n :: rest) = Except.ok ((n.id, cls2) :: g2) by
            simp [hydrateNodes, hn, hrest]] at hok
          rw [Except.ok.injEq] at hok
          subst hok
          constructor
          · intro hmem
            rcases List.mem_cons.1 hmem with heqp | hmem2
            · rw [Prod.mk.injEq] at heqp
              obtain ⟨hid, hcls⟩ := heqp
              refine ⟨n, List.mem_cons_self n rest, hid.symm, ?_⟩
              rw [hn, hcls]
            · obtain ⟨m, hm, hid, hcls⟩ := (ih g2 hrest id cls).1 hmem2
              exact ⟨m, List.mem_cons_of_mem n hm, hid, hcls⟩
          · rintro ⟨m, hm, hid, hcls⟩
            rcases List.mem_cons.1 hm with heqm | hmemr
            · subst heqm
              rw [hn] at hcls
              have hc2 : cls2 = cls := by
                rw [Except.ok.injEq, Option.some.injEq] at hcls
                exact hcls
              subst hc2
              subst hid
              exact List.mem_cons_self _ _
            · exact List.mem_cons_of_mem _
                ((ih g2 hrest id cls).2 ⟨m, hmemr, hid, hcls⟩)

/-- C10: `hydrateGraph` throws "Unknown node type" exactly when some
node's type tag is unrecognized; on success every edge is hydrated (the
non-logging, non-system-message tags as a generic `CannoliEdge`), while
recognized-but-unimplemented nodes (dynamic-reference, categorize,
select) leave no entry under their id. -/
theorem hydrateGraph_char (nodes : List CanvasNode) (edges : List CanvasEdge) :
    ((∃ e, hydrateGraph nodes edges = Except.error e) ↔
      ∃ n ∈ nodes, recognizedNodeType n.type = false)
    ∧ (∀ g, hydrateGraph nodes edges = Except.ok g →
        ((∀ ed ∈ edges, (ed.id, hydrateEdge ed.type) ∈ g)
         ∧ (∀ n ∈ nodes, omittedNodeType n.type = true →
             (∀ m ∈ nodes, m.id = n.id → omittedNodeType m.type = true) →
             (∀ ed ∈ edges, ¬ ed.id = n.id) →
             ∀ cls, ¬ (n.id, cls) ∈ g)))
    ∧ (∀ t, ¬ t = "logging" → ¬ t = "system-message" →
        hydrateEdge t = HydratedClass.cannoliEdge) := by
  refine ⟨?_, ?_, ?_⟩
  · cases hns : hydrateNodes nodes with
    | error e =>
      have heq : hydrateGraph nodes edges = Except.error e := by
        unfold hydrateGraph
        rw [hns]
      rw [heq]
      constructor
      · intro _
        exact (hydrateNodes_error_iff nodes).1 ⟨e, hns⟩
      · intro _
        exact ⟨e, rfl⟩
    | ok gn =>
      have heq : hydrateGraph nodes edges =
          Except.ok (gn ++ edges.map (fun e => (e.id, hydrateEdge e.type))) := by
        unfold hydrateGraph
        rw [hns]
      rw [heq]
      constructor
      · rintro ⟨e, he⟩
        exact absurd he (by simp)
      · intro hex
        obtain ⟨e, he⟩ := (hydrateNodes_error_iff nodes).2 hex
        rw [hns] at he
        exact absurd he (by simp)
  · intro g hg
    cases hns : hydrateNodes nodes with
    | error e =>
      rw [show hydrateGraph nodes edges = Except.error e by
        unfold hydrateGraph; rw [hns]] at hg
      exact absurd hg (by simp)
    | ok gn =>
      rw [show hydrateGraph nodes edges =
          Except.ok (gn ++ edges.map (fun e => (e.id, hydrateEdge e.type))) by
        unfold hydrateGraph; rw [hns]] at hg
      rw [Except.ok.injEq] at hg
      subst hg
      constructor
      · intro ed hed
        exact List.mem_append_right _ (List.mem_map.2 ⟨ed, hed, rfl⟩)
      · intro n hn homit huniq hedid cls hmem
        rcases List.mem_append.1 hmem with hinN | hinE
        · obtain ⟨m, hm, hid, hcls⟩ :=
            (hydrateNodes_mem_iff nodes gn hns n.id cls).1 hinN
          have homitm : omittedNodeType m.type = true := huniq m hm hid
          have hnone : hydrateNode m.type = Except.ok none :=
            hydrateNode_none_of_omitted homitm
          rw [hnone] at hcls
          exact absurd hcls (by simp)
        · obtain ⟨ed, hed, hpair⟩ := List.mem_map.1 hinE
          exact hedid ed hed (congrArg Prod.fst hpair)
  · intro t h1 h2
    unfold hydrateEdge
    rw [if_neg h1, if_neg h2]

/-- The C10 witness node list: one node of the omitted type "select". -/
def nodesC10 : List CanvasNode := [{ id := "n1", type := "select" }]

/-- The C10 witness edge list: one edge of an unhandled type tag. -/
def edgesC10 : List CanvasEdge := [{ id := "e1", type := "write" }]

/-- The graph `hydrateGraph` produces on the C10 witness input. -/
def gC10 : List (String × HydratedClass) := [("e1", HydratedClass.cannoliEdge)]

/-- Concrete instance of the C10 characterization: the "select" node
leaves no entry, while the "write" edge is hydrated generically. -/
theorem hydrateGraph_char_witness :
    ¬ ("n1", HydratedClass.chooseNode) ∈ gC10 ∧
    ("e1", hydrateEdge "write") ∈ gC10 := by
  have h := hydrateGraph_char nodesC10 edgesC10
  have hok : hydrateGraph nodesC10 edgesC10 = Except.ok gC10 := by rfl
  refine ⟨?_, (h.2.1 gC10 hok).1 ⟨"e1", "write"⟩ (by decide)⟩
  exact (h.2.1 gC10 hok).2 ⟨"n1", "select"⟩ (by decide) (by decide)
    (by decide) (by decide) HydratedClass.chooseNode

end Cannoli
